import Mathlib

/-!
Shallow embedding of the kdump calibration pipeline implemented in
`calibrate/run-qemu.py`.  The script boots a VM twice (network-disabled and
network-enabled), feeds the two captured logs through two external parsers
emitting `NAME=integer` lines, merges the parsed counters into one dictionary
per run, and derives calibration figures with exact integer arithmetic.

The definitions below translate the computational core of the script:
line parsing and reduction (lines 192-203), the per-run derivation
(lines 205-218), the cross-run network deltas (lines 256-258) and the
elfcorehdr descriptor construction (lines 114-127, 240-251).  Python integers
are unbounded, so values are `Int`; Python `//` is floor division and raises
`ZeroDivisionError` on a zero divisor, so division is modelled as an
`Option`-valued floor division; a failed dictionary lookup (`KeyError`) and a
failed line parse (`ValueError`) likewise map to `none`, which propagates and
models the script aborting.
-/

set_option autoImplicit false

namespace Kdump

/-- The whitespace characters stripped by Python's `str.strip()` (ASCII set). -/
def isPySpace (c : Char) : Bool :=
  c = ' ' || c = '\t' || c = '\n' || c = '\r' || c = '\x0b' || c = '\x0c'

/-- Model of Python `str.strip()`: drop leading and trailing whitespace. -/
def stripChars (l : List Char) : List Char :=
  ((l.dropWhile isPySpace).reverse.dropWhile isPySpace).reverse

/-- Model of Python `str.split('=')`: split on every occurrence of `'='`.
`splitOnEq []` is `[[]]` because `''.split('=')` is `['']`. -/
def splitOnEq : List Char → List (List Char)
  | [] => [[]]
  | c :: cs =>
    if c = '=' then [] :: splitOnEq cs
    else
      match splitOnEq cs with
      | [] => [[c]]
      | t :: ts => (c :: t) :: ts

/-- Value of one decimal digit character, `none` for a non-digit. -/
def digitVal (c : Char) : Option Nat :=
  if '0' ≤ c && c ≤ '9' then some (c.toNat - 48) else none

/-- Accumulating decimal evaluation of a digit string. -/
def digitsAux : List Char → Nat → Option Nat
  | [], acc => some acc
  | c :: cs, acc =>
    match digitVal c with
    | some d => digitsAux cs (acc * 10 + d)
    | none => none

/-- Decimal value of a non-empty digit string, `none` otherwise. -/
def digitsVal : List Char → Option Nat
  | [] => none
  | l => digitsAux l 0

/-- Model of Python `int(s)` (base 10): surrounding whitespace is ignored, an
optional single `+`/`-` sign precedes a non-empty string of decimal digits;
anything else raises `ValueError`, modelled as `none`. -/
def pyParseInt (l : List Char) : Option Int :=
  match stripChars l with
  | '+' :: rest => (digitsVal rest).map (fun n => (n : Int))
  | '-' :: rest => (digitsVal rest).map (fun n => -(n : Int))
  | rest => (digitsVal rest).map (fun n => (n : Int))

/-- Metric names are character strings. -/
abbrev Key := List Char

/-- The per-run counter dictionary (`results` in the script).  Later
insertions shadow earlier ones, exactly like assignment into a Python dict. -/
abbrev CounterMap := List (Key × Int)

/-- Model of `results[key] = val`. -/
def cmInsert (m : CounterMap) (k : Key) (v : Int) : CounterMap := (k, v) :: m

/-- Model of `results[key]`: the most recently inserted value for `k`,
`none` when the key is absent (Python `KeyError`). -/
def cmGet : CounterMap → Key → Option Int
  | [], _ => none
  | (k1, v) :: m, k => if k1 = k then some v else cmGet m k

/-- One parser output line, script lines 193 and 202:
`(key, val) = line.strip().split('=')` followed by `int(val)`.  The tuple
destructuring requires the split to produce exactly two fields, so a line
without exactly one `'='` raises `ValueError`, modelled as `none`. -/
def parseLine (l : List Char) : Option (Key × Int) :=
  match splitOnEq (stripChars l) with
  | [k, v] =>
    match pyParseInt v with
    | some i => some (k, i)
    | none => none
  | _ => none

/-- The reduction loops of script lines 192-194 and 201-203: fold the parser
output lines into the counter dictionary; any malformed line aborts. -/
def reduceLines : List (List Char) → CounterMap → Option CounterMap
  | [], m => some m
  | l :: ls, m =>
    match parseLine l with
    | some (k, v) => reduceLines ls (cmInsert m k v)
    | none => none

/-- Key `INIT_MEMFREE`. -/
def kINIT_MEMFREE : Key := "INIT_MEMFREE".toList

/-- Key `INIT_CACHED`. -/
def kINIT_CACHED : Key := "INIT_CACHED".toList

/-- Key `PAGESIZE`. -/
def kPAGESIZE : Key := "PAGESIZE".toList

/-- Key `SIZEOFPAGE`. -/
def kSIZEOFPAGE : Key := "SIZEOFPAGE".toList

/-- Key `PERCPU`. -/
def kPERCPU : Key := "PERCPU".toList

/-- Key `KERNEL_BASE`. -/
def kKERNEL_BASE : Key := "KERNEL_BASE".toList

/-- Key `KERNEL_INIT`. -/
def kKERNEL_INIT : Key := "KERNEL_INIT".toList

/-- Key `USER_BASE`. -/
def kUSER_BASE : Key := "USER_BASE".toList

/-- Key `INIT_NET`. -/
def kINIT_NET : Key := "INIT_NET".toList

/-- Key `INIT_CACHED_NET`. -/
def kINIT_CACHED_NET : Key := "INIT_CACHED_NET".toList

/-- Key `USER_NET`. -/
def kUSER_NET : Key := "USER_NET".toList

/-- Python `a // b`: floor division, `ZeroDivisionError` (`none`) for `b = 0`. -/
def pyFloorDiv (a b : Int) : Option Int :=
  if b = 0 then none else some (Int.fdiv a b)

/-- Script lines 209-212: the page-descriptor ("memmap") computation.
Returns `(pagesize_kb, memmap_pages)`:
`pagesize_kb = pagesize // 1024`,
`numpages = (TOTAL_RAM + pagesize_kb - 1) // pagesize_kb`,
`memmap_pages = (numpages * SIZEOFPAGE + pagesize - 1) // pagesize`. -/
def memmapCalc (total_ram pagesize sizeofpage : Int) : Option (Int × Int) := do
  let pagesize_kb ← pyFloorDiv pagesize 1024
  let numpages ← pyFloorDiv (total_ram + pagesize_kb - 1) pagesize_kb
  let memmap_pages ← pyFloorDiv (numpages * sizeofpage + pagesize - 1) pagesize
  return (pagesize_kb, memmap_pages)

/-- Script lines 205-218: the per-run derivation.
`kernel_base = TOTAL_RAM - INIT_MEMFREE - INIT_CACHED - memmap_pages * pagesize_kb`,
then `results['KERNEL_BASE'] = kernel_base - PERCPU` and
`results['PERCPU'] = PERCPU // NUMCPUS`. -/
def runDerive (total_ram numcpus : Int) (results : CounterMap) : Option CounterMap := do
  let init_memfree ← cmGet results kINIT_MEMFREE
  let init_cached ← cmGet results kINIT_CACHED
  let pagesize ← cmGet results kPAGESIZE
  let sizeofpage ← cmGet results kSIZEOFPAGE
  let percpu ← cmGet results kPERCPU
  let pm ← memmapCalc total_ram pagesize sizeofpage
  let kernel_base := total_ram - init_memfree - init_cached - pm.2 * pm.1
  let results1 := cmInsert results kKERNEL_BASE (kernel_base - percpu)
  let percpu_per_cpu ← pyFloorDiv percpu numcpus
  return cmInsert results1 kPERCPU percpu_per_cpu

/-- Script lines 185-218 (`run_qemu` after the VM has produced its two logs):
reduce the kernel-log parser output, then the user-space-log parser output,
into one dictionary, then apply the per-run derivation. -/
def run_qemu (total_ram numcpus : Int)
    (kernelLines userLines : List (List Char)) : Option CounterMap := do
  let m0 ← reduceLines kernelLines []
  let m1 ← reduceLines userLines m0
  runDerive total_ram numcpus m1

/-- Script lines 256-258: the cross-run network deltas, inserted into the
no-network dictionary `results` in source order. -/
def crossDeltas (results netresults : CounterMap) : Option CounterMap := do
  let ki_net ← cmGet netresults kKERNEL_INIT
  let ki ← cmGet results kKERNEL_INIT
  let r1 := cmInsert results kINIT_NET (ki_net - ki)
  let ic_net ← cmGet netresults kINIT_CACHED
  let ic ← cmGet r1 kINIT_CACHED
  let r2 := cmInsert r1 kINIT_CACHED_NET (ic_net - ic)
  let ub_net ← cmGet netresults kUSER_BASE
  let ub ← cmGet r2 kUSER_BASE
  return cmInsert r2 kUSER_NET (ub_net - ub)

/-- Script line 33: fixed physical load address for the elfcorehdr, 768 MiB. -/
def ADDR_ELFCOREHDR : Int := 768 * 1024 * 1024

/-- The core-header descriptor built by `build_elfcorehdr` (lines 114-127):
load address, file path, and file size rounded up to whole KiB. -/
structure Elfcorehdr where
  address : Int
  path : List Char
  size : Nat
deriving DecidableEq

/-- Script lines 115-127: `self.address = addr`, `self.path = path`, and
`self.size = (os.stat(self.path).st_size + 1023) // 1024` where `st_size` is
the byte size of the file written by the external `mkelfcorehdr` tool. -/
def build_elfcorehdr (addr : Int) (st_size : Nat) : Elfcorehdr :=
  { address := addr, path := "elfcorehdr.bin".toList, size := (st_size + 1023) / 1024 }

/-- Orchestrator lines 240, 247 and 251: one descriptor is built (at
`ADDR_ELFCOREHDR`, before either scenario runs) and the same value is handed
to the network-disabled run (first component) and to the network-enabled run
(second component). -/
def pipelineHeaders (st_size : Nat) : Elfcorehdr × Elfcorehdr :=
  let elfcorehdr := build_elfcorehdr ADDR_ELFCOREHDR st_size
  (elfcorehdr, elfcorehdr)

/-- Integer ceiling of the exact quotient `a / b`, written through the
identity `ceil (a / b) = -floor (-a / b)`; for `0 < b` this is the spec's
`ceil` (certified below by `specCeilDiv_char` and `specCeilDiv_le_iff`). -/
def specCeilDiv (a b : Int) : Int := -((-a) / b)

/-- Ceiling of `a / 1024` over `Nat`, stated by the textbook formula:
the truncated quotient, plus one when the division is not exact. -/
def specCeilKiB (a : Nat) : Nat := a / 1024 + (if a % 1024 = 0 then 0 else 1)

/-- The kernel-log parser output of the spec's round-trip test vector. -/
def roundTripKernelLines : List (List Char) :=
  ["PAGESIZE=4096".toList, "SIZEOFPAGE=64".toList, "INIT_MEMFREE=900000".toList,
   "KERNEL_INIT=2000".toList, "PERCPU=8000".toList]

/-- The user-space-log parser output of the spec's round-trip test vector. -/
def roundTripUserLines : List (List Char) :=
  ["INIT_CACHED=5000".toList, "USER_BASE=3000".toList]

/-! ## Supporting lemmas -/

/-- Looking up a key right after inserting it yields the inserted value. -/
theorem cmGet_insert_self (m : CounterMap) (k : Key) (v : Int) :
    cmGet (cmInsert m k v) k = some v := by
  simp [cmGet, cmInsert]

/-- Inserting a different key does not change a lookup. -/
theorem cmGet_insert_ne (m : CounterMap) (k k1 : Key) (v : Int) (h : k1 ≠ k) :
    cmGet (cmInsert m k1 v) k = cmGet m k := by
  simp [cmGet, cmInsert, h]

/-- `specCeilDiv a b` is sandwiched between the exact quotient bounds: for a
positive divisor, `b * (c - 1) < a ≤ b * c` where `c = specCeilDiv a b`. -/
theorem specCeilDiv_char (a b : Int) (hb : 0 < b) :
    b * specCeilDiv a b - b < a ∧ a ≤ b * specCeilDiv a b := by
  have hb0 : b ≠ 0 := ne_of_gt hb
  have h := Int.ediv_add_emod (-a) b
  have h1 : 0 ≤ (-a) % b := Int.emod_nonneg _ hb0
  have h2 : (-a) % b < b := Int.emod_lt_of_pos _ hb
  have e : b * specCeilDiv a b = -(b * ((-a) / b)) := by
    unfold specCeilDiv; ring
  constructor
  · rw [e]; linarith
  · rw [e]; linarith

/-- Galois characterization certifying that `specCeilDiv` is the integer
ceiling of the exact quotient: `⌈a/b⌉ ≤ c ↔ a ≤ b * c` for `0 < b`. -/
theorem specCeilDiv_le_iff (a b c : Int) (hb : 0 < b) :
    specCeilDiv a b ≤ c ↔ a ≤ b * c := by
  obtain ⟨hlt, hle⟩ := specCeilDiv_char a b hb
  constructor
  · intro h
    calc a ≤ b * specCeilDiv a b := hle
    _ ≤ b * c := by
      exact mul_le_mul_of_nonneg_left h (le_of_lt hb)
  · intro h
    by_contra hc
    push_neg at hc
    have h3 : c ≤ specCeilDiv a b - 1 := by omega
    have h4 : b * c ≤ b * (specCeilDiv a b - 1) :=
      mul_le_mul_of_nonneg_left h3 (le_of_lt hb)
    have h5 : b * (specCeilDiv a b - 1) = b * specCeilDiv a b - b := by ring
    linarith

/-- The shifted floor division `(a + b - 1) // b` used throughout the script
is exactly the integer ceiling of `a / b`, for a positive divisor. -/
theorem fdiv_shift_eq_specCeilDiv (a b : Int) (hb : 0 < b) :
    Int.fdiv (a + b - 1) b = specCeilDiv a b := by
  have hb0 : b ≠ 0 := ne_of_gt hb
  rw [Int.fdiv_eq_ediv _ (le_of_lt hb)]
  have h := Int.ediv_add_emod (a + b - 1) b
  have h1 : 0 ≤ (a + b - 1) % b := Int.emod_nonneg _ hb0
  have h2 : (a + b - 1) % b < b := Int.emod_lt_of_pos _ hb
  obtain ⟨hlt, hle⟩ := specCeilDiv_char a b hb
  set c := (a + b - 1) / b with hc
  set d := specCeilDiv a b with hd
  have hcl : b * c - b < a := by omega
  have hcu : a ≤ b * c := by omega
  have g1 : b * c - b < b * d := lt_of_lt_of_le hcl hle
  have g2 : b * d - b < b * c := lt_of_lt_of_le hlt hcu
  have e1 : b * c - b = b * (c - 1) := by ring
  have e2 : b * d - b = b * (d - 1) := by ring
  rw [e1] at g1
  rw [e2] at g2
  have l1 : c - 1 < d := lt_of_mul_lt_mul_left g1 (le_of_lt hb)
  have l2 : d - 1 < c := lt_of_mul_lt_mul_left g2 (le_of_lt hb)
  omega

/-- `pyFloorDiv` on the shifted numerator computes the integer ceiling. -/
theorem pyFloorDiv_shift (a b : Int) (hb : 0 < b) :
    pyFloorDiv (a + b - 1) b = some (specCeilDiv a b) := by
  rw [pyFloorDiv, if_neg (ne_of_gt hb), fdiv_shift_eq_specCeilDiv a b hb]

/-- A page size of at least one KiB gives a positive `pagesize // 1024`. -/
theorem pagesize_kb_pos (ps : Int) (hps : 1024 ≤ ps) : 0 < Int.fdiv ps 1024 := by
  rw [Int.fdiv_eq_ediv _ (by norm_num)]
  have h : (1024 : Int) / 1024 ≤ ps / 1024 := Int.ediv_le_ediv (by norm_num) hps
  norm_num at h
  omega

/-- For a page size of at least one KiB and nonzero CPU count, `memmapCalc`
evaluates to the pair of `pagesize // 1024` and the ceiling-form memmap page
count. -/
theorem memmapCalc_eq (total ps sp : Int) (hps : 1024 ≤ ps) :
    memmapCalc total ps sp =
      some (Int.fdiv ps 1024,
        specCeilDiv (specCeilDiv total (Int.fdiv ps 1024) * sp) ps) := by
  have hpk0 : 0 < Int.fdiv ps 1024 := pagesize_kb_pos ps hps
  have hps0 : (0 : Int) < ps := by omega
  have hd1 : pyFloorDiv ps 1024 = some (Int.fdiv ps 1024) := by
    rw [pyFloorDiv, if_neg]
    norm_num
  have hd2 : pyFloorDiv (total + Int.fdiv ps 1024 - 1) (Int.fdiv ps 1024) =
      some (specCeilDiv total (Int.fdiv ps 1024)) :=
    pyFloorDiv_shift total _ hpk0
  have hd3 : pyFloorDiv (specCeilDiv total (Int.fdiv ps 1024) * sp + ps - 1) ps =
      some (specCeilDiv (specCeilDiv total (Int.fdiv ps 1024) * sp) ps) :=
    pyFloorDiv_shift _ ps hps0
  simp [memmapCalc, hd1, hd2, hd3]

/-- `specCeilDiv` is monotone in the numerator, for a positive divisor. -/
theorem specCeilDiv_mono (a1 a2 b : Int) (hb : 0 < b) (h : a1 ≤ a2) :
    specCeilDiv a1 b ≤ specCeilDiv a2 b := by
  rw [specCeilDiv_le_iff _ _ _ hb]
  exact le_trans h (specCeilDiv_char a2 b hb).2

/-- The ceiling of a quotient of a non-negative numerator by a positive
divisor is non-negative. -/
theorem specCeilDiv_nonneg (a b : Int) (ha : 0 ≤ a) (hb : 0 < b) :
    0 ≤ specCeilDiv a b := by
  by_contra h
  push_neg at h
  have h2 := (specCeilDiv_char a b hb).2
  have h3 : b * specCeilDiv a b < 0 := mul_neg_of_pos_of_neg hb h
  linarith

/-! ## Claims -/

/--
C1 — Per-run derivation: for every CounterMap containing `INIT_MEMFREE`,
`INIT_CACHED`, `PAGESIZE`, `SIZEOFPAGE` and `PERCPU`, and run parameters with
total RAM `total` and `page_size_kib = PAGESIZE // 1024`, the derivation
computes `KERNEL_BASE = total - INIT_MEMFREE - INIT_CACHED -
memmap_pages * page_size_kib - PERCPU` where
`pages_total = ceil(total / page_size_kib)` and
`memmap_pages = ceil(pages_total * SIZEOFPAGE / PAGESIZE)`, with integer
ceiling arithmetic (`specCeilDiv`).
-/
theorem C1_per_run_derivation (total numcpus imf ic ps sp pc : Int)
    (m : CounterMap)
    (h1 : cmGet m kINIT_MEMFREE = some imf)
    (h2 : cmGet m kINIT_CACHED = some ic)
    (h3 : cmGet m kPAGESIZE = some ps)
    (h4 : cmGet m kSIZEOFPAGE = some sp)
    (h5 : cmGet m kPERCPU = some pc)
    (hps : 1024 ≤ ps)
    (hn : numcpus ≠ 0) :
    ∃ r, runDerive total numcpus m = some r ∧
      cmGet r kKERNEL_BASE =
        some (total - imf - ic -
          specCeilDiv (specCeilDiv total (Int.fdiv ps 1024) * sp) ps *
            Int.fdiv ps 1024 - pc) := by
  have hmc := memmapCalc_eq total ps sp hps
  have hq : pyFloorDiv pc numcpus = some (Int.fdiv pc numcpus) := by
    rw [pyFloorDiv, if_neg hn]
  refine ⟨cmInsert
      (cmInsert m kKERNEL_BASE
        (total - imf - ic -
          specCeilDiv (specCeilDiv total (Int.fdiv ps 1024) * sp) ps *
            Int.fdiv ps 1024 - pc))
      kPERCPU (Int.fdiv pc numcpus), ?_, ?_⟩
  · simp [runDerive, h1, h2, h3, h4, h5, hmc, hq]
  · rw [cmGet_insert_ne _ _ _ _ (by decide), cmGet_insert_self]

/-- Witness for C1 at the spec's round-trip inputs. -/
theorem C1_per_run_derivation_witness :
    ∃ r, runDerive 1048576 2
        [(kINIT_MEMFREE, 900000), (kINIT_CACHED, 5000), (kPAGESIZE, 4096),
         (kSIZEOFPAGE, 64), (kPERCPU, 8000)] = some r ∧
      cmGet r kKERNEL_BASE =
        some (1048576 - 900000 - 5000 -
          specCeilDiv (specCeilDiv 1048576 (Int.fdiv 4096 1024) * 64) 4096 *
            Int.fdiv 4096 1024 - 8000) :=
  C1_per_run_derivation 1048576 2 900000 5000 4096 64 8000 _
    (by decide) (by decide) (by decide) (by decide) (by decide)
    (by norm_num) (by norm_num)

/--
C2 — Round-trip test vector: feeding the reducer exactly the lines
`PAGESIZE=4096`, `SIZEOFPAGE=64`, `INIT_MEMFREE=900000`, `KERNEL_INIT=2000`,
`PERCPU=8000` (kernel parser) and `INIT_CACHED=5000`, `USER_BASE=3000`
(user-space parser), with `TOTAL_RAM=1048576` KiB and `NUMCPUS=2`, yields
`KERNEL_BASE = 119192` and the normalized per-CPU figure `PERCPU = 4000`.
-/
theorem C2_round_trip :
    (run_qemu 1048576 2 roundTripKernelLines roundTripUserLines).bind
        (fun r => cmGet r kKERNEL_BASE) = some 119192 ∧
    (run_qemu 1048576 2 roundTripKernelLines roundTripUserLines).bind
        (fun r => cmGet r kPERCPU) = some 4000 := by
  constructor <;> decide

/--
C8 — Core-header descriptor: one descriptor is built per pipeline invocation;
its load address is the fixed policy constant 768 MiB; its size is the
core-header file's byte size rounded up to whole KiB; and the identical
descriptor value is handed to both the network-disabled and the
network-enabled run.
-/
theorem C8_core_header (st_size : Nat) :
    (pipelineHeaders st_size).1 = (pipelineHeaders st_size).2 ∧
    (pipelineHeaders st_size).1.address = 768 * 1024 * 1024 ∧
    (pipelineHeaders st_size).1.size = specCeilKiB st_size := by
  refine ⟨rfl, rfl, ?_⟩
  show (st_size + 1023) / 1024 = specCeilKiB st_size
  unfold specCeilKiB
  by_cases h : st_size % 1024 = 0 <;> simp [h] <;> omega

/--
C3 — Cross-run derivation: for every pair of CounterMaps (network-disabled
`res`, network-enabled `net`) each containing `KERNEL_INIT`, `INIT_CACHED`
and `USER_BASE`, the three network deltas are
`INIT_NET = KERNEL_INIT(net) - KERNEL_INIT(no_net)`,
`INIT_CACHED_NET = INIT_CACHED(net) - INIT_CACHED(no_net)`,
`USER_NET = USER_BASE(net) - USER_BASE(no_net)`.
-/
theorem C3_cross_run_deltas (res net : CounterMap) (ki kin ic icn ub ubn : Int)
    (h1 : cmGet res kKERNEL_INIT = some ki)
    (h2 : cmGet net kKERNEL_INIT = some kin)
    (h3 : cmGet res kINIT_CACHED = some ic)
    (h4 : cmGet net kINIT_CACHED = some icn)
    (h5 : cmGet res kUSER_BASE = some ub)
    (h6 : cmGet net kUSER_BASE = some ubn) :
    ∃ r, crossDeltas res net = some r ∧
      cmGet r kINIT_NET = some (kin - ki) ∧
      cmGet r kINIT_CACHED_NET = some (icn - ic) ∧
      cmGet r kUSER_NET = some (ubn - ub) := by
  have e1 : cmGet (cmInsert res kINIT_NET (kin - ki)) kINIT_CACHED = some ic := by
    rw [cmGet_insert_ne _ _ _ _ (by decide)]
    exact h3
  have e2 : cmGet (cmInsert (cmInsert res kINIT_NET (kin - ki)) kINIT_CACHED_NET
      (icn - ic)) kUSER_BASE = some ub := by
    rw [cmGet_insert_ne _ _ _ _ (by decide), cmGet_insert_ne _ _ _ _ (by decide)]
    exact h5
  refine ⟨cmInsert (cmInsert (cmInsert res kINIT_NET (kin - ki)) kINIT_CACHED_NET
      (icn - ic)) kUSER_NET (ubn - ub), ?_, ?_, ?_, ?_⟩
  · simp [crossDeltas, h1, h2, h4, h6, e1, e2]
  · rw [cmGet_insert_ne _ _ _ _ (by decide), cmGet_insert_ne _ _ _ _ (by decide),
      cmGet_insert_self]
  · rw [cmGet_insert_ne _ _ _ _ (by decide), cmGet_insert_self]
  · rw [cmGet_insert_self]

/-- Witness for C3 at the spec's concrete inputs: deltas 600, 200 and 400. -/
theorem C3_cross_run_deltas_witness :
    ∃ r, crossDeltas
        [(kKERNEL_INIT, 2000), (kINIT_CACHED, 5000), (kUSER_BASE, 3000)]
        [(kKERNEL_INIT, 2600), (kINIT_CACHED, 5200), (kUSER_BASE, 3400)] = some r ∧
      cmGet r kINIT_NET = some 600 ∧
      cmGet r kINIT_CACHED_NET = some 200 ∧
      cmGet r kUSER_NET = some 400 := by
  have h := C3_cross_run_deltas
      [(kKERNEL_INIT, 2000), (kINIT_CACHED, 5000), (kUSER_BASE, 3000)]
      [(kKERNEL_INIT, 2600), (kINIT_CACHED, 5200), (kUSER_BASE, 3400)]
      2000 2600 5000 5200 3000 3400
      (by decide) (by decide) (by decide) (by decide) (by decide) (by decide)
  norm_num at h
  exact h

/--
C6 — Truncation never overshoots: for run parameters with `numcpus ≥ 1` and a
non-negative `PERCPU` counter, the normalized figure stored under `PERCPU` by
the derivation satisfies `percpu_per_cpu * numcpus ≤ percpu_total`.
-/
theorem C6_percpu_truncation (total numcpus imf ic ps sp pc : Int)
    (m : CounterMap)
    (h1 : cmGet m kINIT_MEMFREE = some imf)
    (h2 : cmGet m kINIT_CACHED = some ic)
    (h3 : cmGet m kPAGESIZE = some ps)
    (h4 : cmGet m kSIZEOFPAGE = some sp)
    (h5 : cmGet m kPERCPU = some pc)
    (hn : 1 ≤ numcpus) (hpc : 0 ≤ pc)
    (r : CounterMap) (q : Int)
    (hr : runDerive total numcpus m = some r)
    (hq : cmGet r kPERCPU = some q) :
    q * numcpus ≤ pc := by
  have hn0 : ¬ numcpus = 0 := by omega
  rcases hmc : memmapCalc total ps sp with _ | pm
  · rw [runDerive] at hr
    simp [h1, h2, h3, h4, h5, hmc] at hr
  · rw [runDerive] at hr
    simp [h1, h2, h3, h4, h5, hmc, pyFloorDiv, hn0] at hr
    subst hr
    rw [cmGet_insert_self] at hq
    have hq2 : Int.fdiv pc numcpus = q := Option.some.inj hq
    have hfd : Int.fdiv pc numcpus = pc / numcpus := Int.fdiv_eq_ediv _ (by omega)
    have he := Int.ediv_add_emod pc numcpus
    have hm0 : 0 ≤ pc % numcpus := Int.emod_nonneg _ (by omega)
    have hcomm : q * numcpus = numcpus * (pc / numcpus) := by
      rw [← hq2, hfd]
      ring
    linarith

/-- Witness for C6: with `PERCPU = 8000` and two CPUs, `4000 * 2 ≤ 8000`. -/
theorem C6_percpu_truncation_witness : (4000 : Int) * 2 ≤ 8000 :=
  C6_percpu_truncation 1048576 2 900000 5000 4096 64 8000
    [(kINIT_MEMFREE, 900000), (kINIT_CACHED, 5000), (kPAGESIZE, 4096),
     (kSIZEOFPAGE, 64), (kPERCPU, 8000)]
    (by decide) (by decide) (by decide) (by decide) (by decide)
    (by norm_num) (by norm_num)
    (cmInsert (cmInsert
      [(kINIT_MEMFREE, 900000), (kINIT_CACHED, 5000), (kPAGESIZE, 4096),
       (kSIZEOFPAGE, 64), (kPERCPU, 8000)] kKERNEL_BASE 119192) kPERCPU 4000)
    4000 (by decide) (by decide)

/--
C7 — Monotonicity of `memmap_pages`: for fixed page size and fixed descriptor
size, the memmap page count computed by `memmapCalc` is monotonically
non-decreasing in the total RAM.
-/
theorem C7_memmap_monotone (t1 t2 ps sp : Int) (p1 p2 : Int × Int)
    (hps : 1024 ≤ ps) (hsp : 0 ≤ sp) (ht : t1 ≤ t2)
    (h1 : memmapCalc t1 ps sp = some p1)
    (h2 : memmapCalc t2 ps sp = some p2) :
    p1.2 ≤ p2.2 := by
  rw [memmapCalc_eq t1 ps sp hps] at h1
  rw [memmapCalc_eq t2 ps sp hps] at h2
  have hpk0 : 0 < Int.fdiv ps 1024 := pagesize_kb_pos ps hps
  have hps0 : (0 : Int) < ps := by omega
  have mono1 : specCeilDiv t1 (Int.fdiv ps 1024) ≤ specCeilDiv t2 (Int.fdiv ps 1024) :=
    specCeilDiv_mono _ _ _ hpk0 ht
  have mono2 : specCeilDiv t1 (Int.fdiv ps 1024) * sp ≤
      specCeilDiv t2 (Int.fdiv ps 1024) * sp :=
    mul_le_mul_of_nonneg_right mono1 hsp
  have mono3 : specCeilDiv (specCeilDiv t1 (Int.fdiv ps 1024) * sp) ps ≤
      specCeilDiv (specCeilDiv t2 (Int.fdiv ps 1024) * sp) ps :=
    specCeilDiv_mono _ _ _ hps0 mono2
  rw [← Option.some.inj h1, ← Option.some.inj h2]
  exact mono3

/-- Witness for C7: doubling the RAM from 1 GiB to 2 GiB with 4 KiB pages and
64-byte descriptors moves the memmap page count from 4096 to 8192. -/
theorem C7_memmap_monotone_witness :
    (((4 : Int), (4096 : Int)).2 : Int) ≤ (((4 : Int), (8192 : Int)).2 : Int) :=
  C7_memmap_monotone 1048576 2097152 4096 64 (4, 4096) (4, 8192)
    (by norm_num) (by norm_num) (by norm_num) (by decide) (by decide)

/--
C10 — Division preconditions: the derivation divides by `PAGESIZE // 1024` and
by `NUMCPUS`; under the preconditions `PAGESIZE ≥ 1024` and `NUMCPUS ≥ 1` it
succeeds with no division by zero, while for a reported `PAGESIZE` with
`0 < PAGESIZE < 1024` the computation fails with a division-by-zero error
(modelled as `none`) rather than producing a result.
-/
theorem C10_division_preconditions (total numcpus imf ic ps sp pc : Int)
    (m : CounterMap)
    (h1 : cmGet m kINIT_MEMFREE = some imf)
    (h2 : cmGet m kINIT_CACHED = some ic)
    (h3 : cmGet m kPAGESIZE = some ps)
    (h4 : cmGet m kSIZEOFPAGE = some sp)
    (h5 : cmGet m kPERCPU = some pc) :
    ((1024 ≤ ps ∧ 1 ≤ numcpus) → ∃ r, runDerive total numcpus m = some r) ∧
    ((0 < ps ∧ ps < 1024) → runDerive total numcpus m = none) := by
  constructor
  · rintro ⟨hps, hn⟩
    have hmc := memmapCalc_eq total ps sp hps
    have hn0 : ¬ numcpus = 0 := by omega
    refine ⟨cmInsert
        (cmInsert m kKERNEL_BASE
          (total - imf - ic -
            specCeilDiv (specCeilDiv total (Int.fdiv ps 1024) * sp) ps *
              Int.fdiv ps 1024 - pc))
        kPERCPU (Int.fdiv pc numcpus), ?_⟩
    simp [runDerive, h1, h2, h3, h4, h5, hmc, pyFloorDiv, hn0]
  · rintro ⟨hps0, hps1024⟩
    have hpk : Int.fdiv ps 1024 = 0 := by
      rw [Int.fdiv_eq_ediv _ (by norm_num)]
      exact Int.ediv_eq_zero_of_lt (le_of_lt hps0) hps1024
    have hmc : memmapCalc total ps sp = none := by
      simp [memmapCalc, pyFloorDiv, hpk]
    simp [runDerive, h1, h2, h3, h4, h5, hmc]

/-- Witness for C10: with `PAGESIZE = 512` present, the derivation returns
`none`; with the standard counters it succeeds. -/
theorem C10_division_preconditions_witness :
    (((1024 : Int) ≤ 512 ∧ (1 : Int) ≤ 2) → ∃ r, runDerive 1048576 2
        [(kINIT_MEMFREE, 900000), (kINIT_CACHED, 5000), (kPAGESIZE, 512),
         (kSIZEOFPAGE, 64), (kPERCPU, 8000)] = some r) ∧
    (((0 : Int) < 512 ∧ (512 : Int) < 1024) → runDerive 1048576 2
        [(kINIT_MEMFREE, 900000), (kINIT_CACHED, 5000), (kPAGESIZE, 512),
         (kSIZEOFPAGE, 64), (kPERCPU, 8000)] = none) :=
  C10_division_preconditions 1048576 2 900000 5000 512 64 8000
    [(kINIT_MEMFREE, 900000), (kINIT_CACHED, 5000), (kPAGESIZE, 512),
     (kSIZEOFPAGE, 64), (kPERCPU, 8000)]
    (by decide) (by decide) (by decide) (by decide) (by decide)

/--
C5 (amended) — Integer arithmetic: for every CounterMap whose values are
non-negative integers (with the division preconditions `PAGESIZE ≥ 1024`,
`NUMCPUS ≥ 1`), every division performed by the per-run derivation is a
truncating integer division on non-negative operands with a non-negative
result; the derivation succeeds and the normalized `PERCPU` figure is
non-negative.  (`KERNEL_BASE` itself and the cross-run deltas are integers
but can be negative; see the counterexample.)
-/
theorem C5_integer_arithmetic (total numcpus imf ic ps sp pc : Int)
    (m : CounterMap)
    (h1 : cmGet m kINIT_MEMFREE = some imf)
    (h2 : cmGet m kINIT_CACHED = some ic)
    (h3 : cmGet m kPAGESIZE = some ps)
    (h4 : cmGet m kSIZEOFPAGE = some sp)
    (h5 : cmGet m kPERCPU = some pc)
    (htot : 0 ≤ total) (hsp : 0 ≤ sp) (hpc : 0 ≤ pc)
    (hps : 1024 ≤ ps) (hn : 1 ≤ numcpus) :
    ∃ pk np mm r q,
      pyFloorDiv ps 1024 = some pk ∧ 0 ≤ pk ∧
      pyFloorDiv (total + pk - 1) pk = some np ∧ 0 ≤ np ∧
      pyFloorDiv (np * sp + ps - 1) ps = some mm ∧ 0 ≤ mm ∧
      runDerive total numcpus m = some r ∧
      cmGet r kPERCPU = some q ∧ 0 ≤ q := by
  have hpk0 : 0 < Int.fdiv ps 1024 := pagesize_kb_pos ps hps
  have hps0 : (0 : Int) < ps := by omega
  have hn0 : ¬ numcpus = 0 := by omega
  have hnp : 0 ≤ specCeilDiv total (Int.fdiv ps 1024) :=
    specCeilDiv_nonneg _ _ htot hpk0
  have hmm : 0 ≤ specCeilDiv (specCeilDiv total (Int.fdiv ps 1024) * sp) ps :=
    specCeilDiv_nonneg _ _ (mul_nonneg hnp hsp) hps0
  have hqn : 0 ≤ Int.fdiv pc numcpus := by
    rw [Int.fdiv_eq_ediv _ (by omega)]
    exact Int.ediv_nonneg hpc (by omega)
  refine ⟨Int.fdiv ps 1024, specCeilDiv total (Int.fdiv ps 1024),
      specCeilDiv (specCeilDiv total (Int.fdiv ps 1024) * sp) ps,
      cmInsert
        (cmInsert m kKERNEL_BASE
          (total - imf - ic -
            specCeilDiv (specCeilDiv total (Int.fdiv ps 1024) * sp) ps *
              Int.fdiv ps 1024 - pc))
        kPERCPU (Int.fdiv pc numcpus),
      Int.fdiv pc numcpus, ?_, le_of_lt hpk0, ?_, hnp, ?_, hmm, ?_, ?_, hqn⟩
  · rw [pyFloorDiv, if_neg]
    norm_num
  · exact pyFloorDiv_shift total _ hpk0
  · exact pyFloorDiv_shift _ ps hps0
  · simp [runDerive, h1, h2, h3, h4, h5, memmapCalc_eq total ps sp hps,
      pyFloorDiv, hn0]
  · rw [cmGet_insert_self]

/-- Witness for C5 (amended) at the spec's round-trip inputs. -/
theorem C5_integer_arithmetic_witness :
    ∃ pk np mm r q,
      pyFloorDiv 4096 1024 = some pk ∧ 0 ≤ pk ∧
      pyFloorDiv (1048576 + pk - 1) pk = some np ∧ 0 ≤ np ∧
      pyFloorDiv (np * 64 + 4096 - 1) 4096 = some mm ∧ 0 ≤ mm ∧
      runDerive 1048576 2
        [(kINIT_MEMFREE, 900000), (kINIT_CACHED, 5000), (kPAGESIZE, 4096),
         (kSIZEOFPAGE, 64), (kPERCPU, 8000)] = some r ∧
      cmGet r kPERCPU = some q ∧ 0 ≤ q :=
  C5_integer_arithmetic 1048576 2 900000 5000 4096 64 8000
    [(kINIT_MEMFREE, 900000), (kINIT_CACHED, 5000), (kPAGESIZE, 4096),
     (kSIZEOFPAGE, 64), (kPERCPU, 8000)]
    (by decide) (by decide) (by decide) (by decide) (by decide)
    (by norm_num) (by norm_num) (by norm_num) (by norm_num) (by norm_num)

/--
C5 counterexample — the claim as stated is false: with all counter values
non-negative (`INIT_MEMFREE = 2000000` exceeding the 1 GiB of RAM), the
derivation succeeds and stores a negative `KERNEL_BASE = -967808`, so not
every value in the result is a non-negative integer.
-/
theorem C5_negative_kernel_base :
    (runDerive 1048576 2
        [(kINIT_MEMFREE, 2000000), (kINIT_CACHED, 0), (kPAGESIZE, 4096),
         (kSIZEOFPAGE, 64), (kPERCPU, 0)]).bind
      (fun r => cmGet r kKERNEL_BASE) = some (-967808) ∧
    (-967808 : Int) < 0 := by
  constructor <;> decide

/-- `splitOnEq` never returns an empty list of fields. -/
theorem splitOnEq_ne_nil : ∀ (s : List Char), splitOnEq s ≠ []
  | [] => by simp [splitOnEq]
  | c :: cs => by
    unfold splitOnEq
    split
    · simp
    · split
      · simp
      · simp

/-- A one-field split means the string contains no `'='` at all. -/
theorem splitOnEq_singleton : ∀ (s b : List Char),
    splitOnEq s = [b] → s = b ∧ '=' ∉ b
  | [], b => by
    intro h
    unfold splitOnEq at h
    injection h with h1 _
    exact ⟨h1, by rw [← h1]; simp⟩
  | c :: cs, b => by
    intro h
    unfold splitOnEq at h
    by_cases hc : c = '='
    · rw [if_pos hc] at h
      injection h with _ h2
      exact absurd h2 (splitOnEq_ne_nil cs)
    · rw [if_neg hc] at h
      rcases hcs : splitOnEq cs with _ | ⟨t, ts⟩
      · exact absurd hcs (splitOnEq_ne_nil cs)
      · rw [hcs] at h
        injection h with h1 h2
        subst h2
        obtain ⟨hcst, hnotin⟩ := splitOnEq_singleton cs t hcs
        subst hcst
        refine ⟨h1, ?_⟩
        rw [← h1]
        simp only [List.mem_cons, not_or]
        exact ⟨fun he => hc he.symm, hnotin⟩

/-- A two-field split decomposes the string around its unique `'='`. -/
theorem splitOnEq_pair : ∀ (s a b : List Char), splitOnEq s = [a, b] →
    s = a ++ '=' :: b ∧ '=' ∉ a ∧ '=' ∉ b
  | [], a, b => by
    intro h
    unfold splitOnEq at h
    injection h with _ h2
    simp at h2
  | c :: cs, a, b => by
    intro h
    unfold splitOnEq at h
    by_cases hc : c = '='
    · rw [if_pos hc] at h
      injection h with h1 h2
      obtain ⟨hcs, hnb⟩ := splitOnEq_singleton cs b h2
      subst hcs
      refine ⟨?_, ?_, hnb⟩
      · rw [← h1, hc]
        rfl
      · rw [← h1]
        simp
    · rw [if_neg hc] at h
      rcases hcs : splitOnEq cs with _ | ⟨t, ts⟩
      · exact absurd hcs (splitOnEq_ne_nil cs)
      · rw [hcs] at h
        injection h with h1 h2
        subst h2
        obtain ⟨hseq, hna, hnb⟩ := splitOnEq_pair cs t b hcs
        refine ⟨?_, ?_, hnb⟩
        · rw [← h1, hseq]
          rfl
        · rw [← h1]
          simp only [List.mem_cons, not_or]
          exact ⟨fun he => hc he.symm, hna⟩

/-- Inversion of a successful line parse: the stripped line split into
exactly two fields and the value field parsed as an integer. -/
theorem parseLine_some (l : List Char) (k : Key) (i : Int)
    (h : parseLine l = some (k, i)) :
    ∃ v, splitOnEq (stripChars l) = [k, v] ∧ pyParseInt v = some i := by
  unfold parseLine at h
  rcases hs : splitOnEq (stripChars l) with _ | ⟨x, _ | ⟨y, _ | ⟨z, rest⟩⟩⟩
  · rw [hs] at h
    simp at h
  · rw [hs] at h
    simp at h
  · rw [hs] at h
    simp only [] at h
    rcases hp : pyParseInt y with _ | j
    · rw [hp] at h
      simp at h
    · rw [hp] at h
      simp only [Option.some.injEq, Prod.mk.injEq] at h
      obtain ⟨hx, hj⟩ := h
      exact ⟨y, by rw [hx], by rw [hp, hj]⟩
  · rw [hs] at h
    simp at h

/-- A malformed line anywhere in a parser's output stream makes the whole
reduction fail. -/
theorem reduceLines_eq_none : ∀ (ls : List (List Char)) (m : CounterMap)
    (l : List Char), l ∈ ls → parseLine l = none → reduceLines ls m = none
  | [], _, l => by
    intro h _
    simp at h
  | l0 :: ls, m, l => by
    intro hmem hnone
    rcases List.mem_cons.mp hmem with rfl | hmem2
    · simp [reduceLines, hnone]
    · rcases hp : parseLine l0 with _ | ⟨k0, v0⟩
      · simp [reduceLines, hp]
      · simp [reduceLines, hp]
        exact reduceLines_eq_none ls _ l hmem2 hnone

/-- Reduction distributes over list append. -/
theorem reduceLines_append : ∀ (xs ys : List (List Char)) (m : CounterMap),
    reduceLines (xs ++ ys) m =
      (reduceLines xs m).bind (fun m1 => reduceLines ys m1)
  | [], ys, m => by simp [reduceLines]
  | l :: xs, ys, m => by
    rcases hp : parseLine l with _ | ⟨k, v⟩
    · simp [reduceLines, hp]
    · simp [reduceLines, hp]
      exact reduceLines_append xs ys (cmInsert m k v)

/-- Reducing lines none of which carries key `k` leaves the lookup of `k`
unchanged. -/
theorem reduceLines_frame : ∀ (ls : List (List Char)) (m m1 : CounterMap)
    (k : Key),
    (∀ l ∈ ls, ∀ k2 v2, parseLine l = some (k2, v2) → k2 ≠ k) →
    reduceLines ls m = some m1 → cmGet m1 k = cmGet m k
  | [], m, m1, k => by
    intro _ h
    simp [reduceLines] at h
    rw [← h]
  | l :: ls, m, m1, k => by
    intro hkeys hred
    rcases hp : parseLine l with _ | ⟨k2, v2⟩
    · simp [reduceLines, hp] at hred
    · simp [reduceLines, hp] at hred
      have hne : k2 ≠ k := hkeys l (by simp) k2 v2 hp
      rw [reduceLines_frame ls _ m1 k (fun l2 hl2 => hkeys l2 (by simp [hl2])) hred]
      exact cmGet_insert_ne m k k2 v2 hne

/--
C4 — Malformed-line abort: any line in either parser's output that is not of
the form `NAME=integer` — the stripped line does not decompose as a name, a
single `'='`, and a base-10 integer value — makes `run_qemu` fail: the line
is never skipped and no partial CounterMap reaches the derivation.
-/
theorem C4_malformed_line_aborts (total numcpus : Int)
    (kernelLines userLines : List (List Char)) (l : List Char)
    (hmem : l ∈ kernelLines ∨ l ∈ userLines)
    (hmal : ¬ ∃ name val i, stripChars l = name ++ '=' :: val ∧
        '=' ∉ name ∧ '=' ∉ val ∧ pyParseInt val = some i) :
    run_qemu total numcpus kernelLines userLines = none := by
  have hnone : parseLine l = none := by
    rcases hp : parseLine l with _ | ⟨k, i⟩
    · rfl
    · obtain ⟨v, hs, hv⟩ := parseLine_some l k i hp
      obtain ⟨hdec, hna, hnv⟩ := splitOnEq_pair _ k v hs
      exact absurd ⟨k, v, i, hdec, hna, hnv, hv⟩ hmal
  rcases hmem with hk | hu
  · have h := reduceLines_eq_none kernelLines [] l hk hnone
    simp [run_qemu, h]
  · rcases hr : reduceLines kernelLines [] with _ | mA
    · simp [run_qemu, hr]
    · have h := reduceLines_eq_none userLines mA l hu hnone
      simp [run_qemu, hr, h]

/-- Witness for C4: the line `PAGESIZE:4096` (no `'='`) aborts the run. -/
theorem C4_malformed_line_aborts_witness :
    run_qemu 1048576 2 ["PAGESIZE:4096".toList] [] = none :=
  C4_malformed_line_aborts 1048576 2 ["PAGESIZE:4096".toList] []
    ("PAGESIZE:4096".toList)
    (Or.inl (by simp))
    (by
      rintro ⟨name, val, i, heq, -, -, -⟩
      have hin : '=' ∈ stripChars ("PAGESIZE:4096".toList) := by
        rw [heq]
        simp
      exact absurd hin (by decide))

/--
C9 — Duplicate-key resolution: when the kernel-log parser and the
user-space-log parser both emit a value for the same key in one run, the
merged CounterMap holds the user-space parser's value, because the
user-space lines are reduced after the kernel lines into the same map and
the later insertion wins.
-/
theorem C9_user_value_wins (kernelLines us1 us2 : List (List Char))
    (l : List Char) (k : Key) (v vk : Int) (m m1 : CounterMap)
    (hkred : reduceLines kernelLines [] = some m)
    (hkv : cmGet m k = some vk)
    (hl : parseLine l = some (k, v))
    (hafter : ∀ l2 ∈ us2, ∀ k2 v2, parseLine l2 = some (k2, v2) → k2 ≠ k)
    (hured : reduceLines (us1 ++ l :: us2) m = some m1) :
    cmGet m1 k = some v := by
  rw [reduceLines_append] at hured
  rcases h1 : reduceLines us1 m with _ | mA
  · rw [h1] at hured
    simp at hured
  · rw [h1] at hured
    simp only [Option.some_bind] at hured
    simp only [reduceLines, hl] at hured
    rw [reduceLines_frame us2 _ m1 k hafter hured]
    exact cmGet_insert_self mA k v

/-- Witness for C9: the kernel parser reports `INIT_CACHED=1`, the user-space
parser reports `INIT_CACHED=5000`; the merged map holds 5000. -/
theorem C9_user_value_wins_witness :
    cmGet [(kINIT_CACHED, 5000), (kINIT_CACHED, 1)] kINIT_CACHED = some 5000 :=
  C9_user_value_wins ["INIT_CACHED=1".toList] [] [] ("INIT_CACHED=5000".toList)
    kINIT_CACHED 5000 1 [(kINIT_CACHED, 1)]
    [(kINIT_CACHED, 5000), (kINIT_CACHED, 1)]
    (by decide) (by decide) (by decide) (by simp) (by decide)

end Kdump
